import Mathlib

/-!
Shallow embedding of the salticidae connection-pool header
(`salticidae/conn.h`): the `RingBuffer` segmented byte buffer, the
`ConnPool::Conn` connection object, and the `ConnPool` pool itself.

Bytes (`uint8_t`, via `bytearray_t = std::vector<uint8_t>` from
`salticidae/type.h`) are modelled as `Nat`; the buffer logic never
inspects byte values. `size_t` values are modelled as `Nat`: the one
subtraction the source performs on `_size` is shown not to underflow
under the stated size invariant, so truncated `Nat` subtraction agrees
with `size_t` arithmetic.
-/

namespace Salticidae

/-- `bytearray_t = std::vector<uint8_t>` (from `salticidae/type.h`). -/
abbrev bytearray_t := List Nat

/-- One segment of the ring buffer (`RingBuffer::buffer_entry_t`): the
owned `data` plus the read cursor `offset`, modelled as the index
`offset - data.begin()` of the C++ iterator. -/
structure buffer_entry_t where
  data : bytearray_t
  offset : Nat
  deriving DecidableEq

/-- `buffer_entry_t::length()`: `data.end() - offset`. -/
def buffer_entry_t.length (e : buffer_entry_t) : Nat :=
  e.data.length - e.offset

/-- Copy constructor of `buffer_entry_t`: copies `data` and places the new
cursor at the same distance from the new `begin()`:
`offset = data.begin() + (other.offset - other.data.begin())`,
i.e. index `0 + (other.offset - 0)`. -/
def buffer_entry_t.copyCtor (other : buffer_entry_t) : buffer_entry_t :=
  { data := other.data, offset := 0 + (other.offset - 0) }

/-- The `RingBuffer`: the `std::list` of segments and the cached byte
count `_size`. -/
structure RingBuffer where
  ring : List buffer_entry_t
  _size : Nat
  deriving DecidableEq

/-- `RingBuffer()` default constructor: empty list, `_size(0)`. -/
def RingBuffer.init : RingBuffer := { ring := [], _size := 0 }

/-- Logical content of a segment list: the unconsumed tail
`[offset, data.end())` of every segment, concatenated in order. -/
def bufferContent (es : List buffer_entry_t) : bytearray_t :=
  (es.map fun e => e.data.drop e.offset).flatten

/-- Logical content of a `RingBuffer`. -/
def RingBuffer.content (b : RingBuffer) : bytearray_t :=
  bufferContent b.ring

/-- `RingBuffer::push(data)`: `_size += data.size()` and append a new
segment whose cursor starts at `data.begin()`. -/
def RingBuffer.push (b : RingBuffer) (data : bytearray_t) : RingBuffer :=
  { ring := b.ring ++ [{ data := data, offset := 0 }]
    _size := b._size + data.length }

/-- The loop of `RingBuffer::pop(len)`: starting from the front segment,
copy `copy_len = min(length(), len)` bytes from the cursor, advance the
cursor, and move to the next segment exactly when the cursor reaches
`data.end()` (equivalently `copy_len = length()`). Returns the bytes
copied and the remaining segment list; the source erases the fully
consumed prefix `[begin, i)` after the loop, which here corresponds to
the entries dropped along the way. -/
def popAux : List buffer_entry_t → Nat → bytearray_t × List buffer_entry_t
  | [], _ => ([], [])
  | e :: es, len =>
    if len = 0 then ([], e :: es)
    else
      -- copy_len = min(i->length(), len), written out at each use
      if min e.length len = e.length then
        ((e.data.drop e.offset).take (min e.length len)
           ++ (popAux es (len - min e.length len)).1,
         (popAux es (len - min e.length len)).2)
      else
        ((e.data.drop e.offset).take (min e.length len),
         { data := e.data, offset := e.offset + min e.length len } :: es)

/-- `RingBuffer::pop(len)`: run the loop, then `_size -= res.size()`. -/
def RingBuffer.pop (b : RingBuffer) (len : Nat) : bytearray_t × RingBuffer :=
  let r := popAux b.ring len
  (r.1, { ring := r.2, _size := b._size - r.1.length })

/-- `RingBuffer::size()`: the cached counter. -/
def RingBuffer.size (b : RingBuffer) : Nat := b._size

/-- `RingBuffer::clear()`: drop all segments, reset `_size` to 0. -/
def RingBuffer.clear (b : RingBuffer) : RingBuffer :=
  { ring := [], _size := 0 }

/-- Copy constructor `RingBuffer(const RingBuffer&)`: copies the segment
list (each entry via its copy constructor) and the cached size. -/
def RingBuffer.copyCtor (other : RingBuffer) : RingBuffer :=
  { ring := other.ring.map buffer_entry_t.copyCtor, _size := other._size }

/-- Move constructor `RingBuffer(RingBuffer&&)`: takes the segment list
(`std::list` move leaves the source list empty) and the size, and sets
`other._size = 0` explicitly. Returns (new buffer, moved-from source). -/
def RingBuffer.moveCtor (other : RingBuffer) : RingBuffer × RingBuffer :=
  ({ ring := other.ring, _size := other._size }, { ring := [], _size := 0 })

/-- `RingBuffer::swap`: `std::swap` of both members. Returns the two
updated objects, in order. -/
def RingBuffer.swap (a b : RingBuffer) : RingBuffer × RingBuffer :=
  ({ ring := b.ring, _size := b._size }, { ring := a.ring, _size := a._size })

/-- Move assignment `*this = std::move(other)` for distinct objects:
`RingBuffer tmp(std::move(other)); tmp.swap(*this);` with `tmp` then
destroyed. Returns (new this, new other). -/
def RingBuffer.moveAssign (self other : RingBuffer) : RingBuffer × RingBuffer :=
  let m := RingBuffer.moveCtor other
  let s := RingBuffer.swap m.1 self
  (s.2, m.2)

/-- Copy assignment for distinct objects:
`RingBuffer tmp(other); tmp.swap(*this);`; `other` is untouched. -/
def RingBuffer.copyAssign (self other : RingBuffer) : RingBuffer × RingBuffer :=
  let tmp := RingBuffer.copyCtor other
  let s := RingBuffer.swap tmp self
  (s.2, other)

/-- The three mutating operations of the buffer interface. -/
inductive RingBufferOp where
  | push : bytearray_t → RingBufferOp
  | pop : Nat → RingBufferOp
  | clear : RingBufferOp

/-- Apply one operation to the buffer state (a `pop` keeps the resulting
buffer, discarding the returned bytes). -/
def RingBuffer.applyOp (b : RingBuffer) : RingBufferOp → RingBuffer
  | .push d => b.push d
  | .pop len => (b.pop len).2
  | .clear => b.clear

/-- The buffer state reached from a freshly constructed buffer by a
sequence of operations. -/
def RingBuffer.runOps (ops : List RingBufferOp) : RingBuffer :=
  ops.foldl RingBuffer.applyOp RingBuffer.init

/-- The size invariant of the spec: the cached counter equals the number
of unconsumed bytes across all segments. -/
def RingBuffer.sizeInv (b : RingBuffer) : Prop :=
  b._size = b.content.length

/-- A fresh buffer after a sequence of `push` calls. -/
def RingBuffer.pushAll (ps : List bytearray_t) : RingBuffer :=
  ps.foldl RingBuffer.push RingBuffer.init

/-- A sequence of `pop` calls; returns each call's result, in order, and
the final buffer. -/
def RingBuffer.popMany : RingBuffer → List Nat → List bytearray_t × RingBuffer
  | b, [] => ([], b)
  | b, len :: ls =>
    let r := b.pop len
    let rest := RingBuffer.popMany r.2 ls
    (r.1 :: rest.1, rest.2)

/-- State of a `ConnPool::Conn`. Event registrations (`Event` objects)
are modelled as Booleans recording whether a registration is pending;
the strong self-reference `self_ref` as a Boolean recording whether it
is still held; the socket handle as its `fd` value plus an OS-side
open flag; and invocations of the `on_teardown` hook are counted. -/
structure ConnPool.Conn where
  fd : Int
  fd_open : Bool
  self_ref : Bool
  send_buffer : RingBuffer
  ready_send : Bool
  ev_read : Bool
  ev_write : Bool
  ev_connect : Bool
  in_pool : Bool
  teardown_count : Nat
  deriving DecidableEq

/-- `ConnPool::Conn::close()` (source lines 207-213): clear the three
event registrations, `::close(fd)`, then `fd = -1`. It does not touch
the pool registry, the self-reference, or the teardown hook. -/
def ConnPool.Conn.close (c : ConnPool.Conn) : ConnPool.Conn :=
  { c with ev_read := false, ev_write := false, ev_connect := false,
           fd_open := false, fd := -1 }

/-- Modelled from the spec: the body of `ConnPool::Conn::terminate()` is
not in the sources (only its declaration, line 203). Per the spec
(§4.2): on first call it cancels all pending event registrations, closes
the socket handle, invokes the teardown hook, removes the entry from the
pool registry, and releases the internal self-reference; subsequent
calls are no-ops. A "first call" is one where the self-reference (held
from construction, `Conn(): self_ref(this)`) is still held. -/
def ConnPool.Conn.terminate (c : ConnPool.Conn) : ConnPool.Conn :=
  if c.self_ref then
    { c.close with in_pool := false, self_ref := false,
                   teardown_count := c.teardown_count + 1 }
  else c

/-- Modelled from the spec: the body of `ConnPool::Conn::send_data` is
not in the sources (only its declaration, line 173). Per the spec (§4.2
steady state): queued segments are flushed from the send buffer until
the socket would block or the buffer empties; `ready_send` is set once
no backlog remains and cleared when a partial write occurs. `cap` makes
explicit the number of bytes the OS accepts before it would block. -/
def ConnPool.Conn.send_data (c : ConnPool.Conn) (cap : Nat) : ConnPool.Conn :=
  let r := c.send_buffer.pop cap
  { c with send_buffer := r.2, ready_send := r.2.size == 0 }

/-- `ConnPool::Conn::write(data)` (source lines 193-197): push `data`
onto the send buffer, then call `send_data` iff `ready_send` is set.
The returned Boolean records whether `send_data` was invoked during the
call. -/
def ConnPool.Conn.write (c : ConnPool.Conn) (data : bytearray_t) (cap : Nat) :
    ConnPool.Conn × Bool :=
  let c1 := { c with send_buffer := c.send_buffer.push data }
  if c.ready_send then (c1.send_data cap, true) else (c1, false)

/-- `ConnPoolError`, the typed error of the pool (a `SalticidaeError`,
which carries a message). -/
structure ConnPoolError where
  msg : String
  deriving DecidableEq

/-- The `ConnPool`: configuration, the registry `pool` mapping socket
handle to connection, and the listening socket (absent until `listen`
is called) with its event registration. -/
structure ConnPool where
  max_listen_backlog : Int
  try_conn_delay : Nat
  conn_server_timeout : Nat
  seg_buff_size : Nat
  pool : List (Int × ConnPool.Conn)
  listen_fd : Option Int
  ev_listen : Bool
  deriving DecidableEq

/-- The `ConnPool` constructor (source lines 241-250): stores the four
configuration values; the registry starts empty and there is no
listening socket yet. The two `double` parameters hold small integral
values and are modelled as `Nat`. -/
def ConnPool.ctor (max_listen_backlog : Int) (try_conn_delay : Nat)
    (conn_server_timeout : Nat) (seg_buff_size : Nat) : ConnPool :=
  { max_listen_backlog := max_listen_backlog, try_conn_delay := try_conn_delay,
    conn_server_timeout := conn_server_timeout, seg_buff_size := seg_buff_size,
    pool := [], listen_fd := none, ev_listen := false }

/-- Construction with no explicit configuration arguments: the C++
default arguments (source lines 242-245) are `10, 2, 2, 4096`. -/
def ConnPool.ctorDefault : ConnPool := ConnPool.ctor 10 2 2 4096

/-- `ConnPool::~ConnPool()` (source lines 252-258): call `close()` on
every connection in the registry. -/
def ConnPool.destructor (p : ConnPool) : List (Int × ConnPool.Conn) :=
  p.pool.map fun kv => (kv.1, kv.2.close)

/-- The OS outcome of a `listen` call, made explicit: whether `bind`
succeeds, whether `listen` succeeds, and the descriptor of the
listening socket. -/
structure ListenOS where
  bind_ok : Bool
  listen_ok : Bool
  sock_fd : Int
  deriving DecidableEq

/-- Modelled from the spec: the body of `ConnPool::listen` is not in the
sources (only its declaration, line 266). Per the spec (§4.3, §7): it
binds and listens on the address with the configured backlog and
registers read-readiness on the listening socket; if bind or listen
fails at the OS level (the `os` argument makes the OS outcome explicit)
it reports a typed `ConnPoolError` synchronously to the caller, and the
pool (registry and configuration) is unchanged. -/
def ConnPool.listen (p : ConnPool) (os : ListenOS) :
    ConnPool × Option ConnPoolError :=
  if os.bind_ok = false then (p, some { msg := "binding error" })
  else if os.listen_ok = false then (p, some { msg := "listen error" })
  else ({ p with listen_fd := some os.sock_fd, ev_listen := true }, none)

/-- Concrete buffer used to instantiate hypotheses of the pop theorem:
one segment `[1,2,3]` whose first byte is already consumed. -/
def rbExample : RingBuffer :=
  { ring := [{ data := [1, 2, 3], offset := 1 }], _size := 2 }

/-- Concrete connection used to instantiate hypotheses of the
connection theorems: freshly set up, live in the pool. -/
def connExample : ConnPool.Conn :=
  { fd := 5, fd_open := true, self_ref := true, send_buffer := RingBuffer.init,
    ready_send := true, ev_read := true, ev_write := true, ev_connect := false,
    in_pool := true, teardown_count := 0 }

/-- Concrete pool holding one registered connection. -/
def poolExample : ConnPool :=
  { ConnPool.ctorDefault with pool := [((5 : Int), connExample)] }

theorem popAux_zero (es : List buffer_entry_t) : popAux es 0 = ([], es) := by
  cases es <;> simp [popAux]

theorem length_drop_offset (e : buffer_entry_t) :
    (e.data.drop e.offset).length = e.length := by
  simp [buffer_entry_t.length]

theorem bufferContent_nil : bufferContent [] = [] := rfl

theorem bufferContent_cons (e : buffer_entry_t) (es : List buffer_entry_t) :
    bufferContent (e :: es) = e.data.drop e.offset ++ bufferContent es := by
  simp [bufferContent]

theorem popAux_fst (es : List buffer_entry_t) :
    ∀ len, (popAux es len).1 = (bufferContent es).take len := by
  induction es with
  | nil => intro len; simp [popAux, bufferContent_nil]
  | cons e es ih =>
    intro len
    rw [bufferContent_cons]
    by_cases h0 : len = 0
    · subst h0; simp [popAux]
    · by_cases hc : min e.length len = e.length
      · have hle : e.length ≤ len := by omega
        simp only [popAux, if_neg h0, if_pos hc]
        rw [ih, List.take_append_eq_append_take, length_drop_offset, hc]
        congr 1
        rw [List.take_of_length_le (by rw [length_drop_offset]),
            List.take_of_length_le (by rw [length_drop_offset]; exact hle)]
      · have hlt : len < e.length := by omega
        have hmin : min e.length len = len := by omega
        simp only [popAux, if_neg h0, if_neg hc]
        rw [List.take_append_eq_append_take, length_drop_offset, hmin,
            Nat.sub_eq_zero_of_le (Nat.le_of_lt hlt), List.take_zero,
            List.append_nil]

theorem popAux_snd (es : List buffer_entry_t) :
    ∀ len, bufferContent (popAux es len).2 = (bufferContent es).drop len := by
  induction es with
  | nil => intro len; simp [popAux, bufferContent_nil]
  | cons e es ih =>
    intro len
    rw [bufferContent_cons]
    by_cases h0 : len = 0
    · subst h0; simp [popAux, bufferContent_cons]
    · by_cases hc : min e.length len = e.length
      · have hle : e.length ≤ len := by omega
        simp only [popAux, if_neg h0, if_pos hc]
        have hd : (e.data.drop e.offset).drop len = [] :=
          List.drop_eq_nil_of_le (by rw [length_drop_offset]; exact hle)
        rw [ih, List.drop_append_eq_append_drop, hd, length_drop_offset, hc,
            List.nil_append]
      · have hlt : len < e.length := by omega
        have hmin : min e.length len = len := by omega
        simp only [popAux, if_neg h0, if_neg hc]
        rw [bufferContent_cons, List.drop_append_eq_append_drop,
            length_drop_offset, hmin, Nat.sub_eq_zero_of_le (Nat.le_of_lt hlt),
            List.drop_zero]
        congr 1
        simp [List.drop_drop, Nat.add_comm]

theorem popAux_snd_suffix (es : List buffer_entry_t) :
    ∀ len, ((popAux es len).2.map fun e => e.data) <:+ (es.map fun e => e.data) := by
  induction es with
  | nil => intro len; simp [popAux]
  | cons e es ih =>
    intro len
    by_cases h0 : len = 0
    · subst h0; simp [popAux]
    · by_cases hc : min e.length len = e.length
      · simp only [popAux, if_neg h0, if_pos hc]
        exact (ih (len - min e.length len)).trans (List.suffix_cons _ _)
      · simp only [popAux, if_neg h0, if_neg hc, List.map_cons]
        exact List.suffix_refl _

theorem popAux_snd_entries (es : List buffer_entry_t) :
    ∀ len, ∀ x ∈ (popAux es len).2,
      ∃ e ∈ es, e.data = x.data ∧ e.offset ≤ x.offset := by
  induction es with
  | nil => intro len x hx; simp [popAux] at hx
  | cons e es ih =>
    intro len x hx
    by_cases h0 : len = 0
    · subst h0
      simp only [popAux] at hx
      exact ⟨x, hx, rfl, Nat.le_refl _⟩
    · by_cases hc : min e.length len = e.length
      · simp only [popAux, if_neg h0, if_pos hc] at hx
        obtain ⟨e', he', h⟩ := ih (len - min e.length len) x hx
        exact ⟨e', List.mem_cons_of_mem _ he', h⟩
      · simp only [popAux, if_neg h0, if_neg hc, List.mem_cons] at hx
        rcases hx with hx | hx
        · exact ⟨e, List.mem_cons_self _ _, by subst hx; exact ⟨rfl, Nat.le_add_right _ _⟩⟩
        · exact ⟨x, List.mem_cons_of_mem _ hx, rfl, Nat.le_refl _⟩

theorem RingBuffer.content_init : RingBuffer.init.content = [] := rfl

theorem RingBuffer.content_push (b : RingBuffer) (d : bytearray_t) :
    (b.push d).content = b.content ++ d := by
  simp [RingBuffer.push, RingBuffer.content, bufferContent]

theorem RingBuffer.pop_fst (b : RingBuffer) (len : Nat) :
    (b.pop len).1 = b.content.take len :=
  popAux_fst b.ring len

theorem RingBuffer.pop_snd_content (b : RingBuffer) (len : Nat) :
    (b.pop len).2.content = b.content.drop len :=
  popAux_snd b.ring len

theorem RingBuffer.pop_fst_length (b : RingBuffer) (len : Nat) :
    (b.pop len).1.length = min len b.content.length := by
  rw [RingBuffer.pop_fst]; exact List.length_take ..

theorem RingBuffer.pop_snd_size (b : RingBuffer) (len : Nat) :
    (b.pop len).2._size = b._size - (b.pop len).1.length := rfl

theorem RingBuffer.sizeInv_init : RingBuffer.init.sizeInv := rfl

theorem RingBuffer.sizeInv_applyOp (b : RingBuffer) (op : RingBufferOp)
    (h : b.sizeInv) : (b.applyOp op).sizeInv := by
  cases op with
  | push d =>
    show (b.push d).sizeInv
    unfold RingBuffer.sizeInv at *
    rw [RingBuffer.content_push]
    simp [RingBuffer.push, h]
  | pop len =>
    show ((b.pop len).2).sizeInv
    unfold RingBuffer.sizeInv at *
    rw [RingBuffer.pop_snd_size, RingBuffer.pop_snd_content,
        RingBuffer.pop_fst_length, List.length_drop, h]
    omega
  | clear =>
    show (b.clear).sizeInv
    unfold RingBuffer.sizeInv
    simp [RingBuffer.clear, RingBuffer.content, bufferContent_nil]

theorem RingBuffer.sizeInv_foldl (ops : List RingBufferOp) :
    ∀ b : RingBuffer, b.sizeInv → (ops.foldl RingBuffer.applyOp b).sizeInv := by
  induction ops with
  | nil => intro b h; exact h
  | cons op ops ih =>
    intro b h
    exact ih _ (RingBuffer.sizeInv_applyOp b op h)

theorem RingBuffer.content_foldl_push (ps : List bytearray_t) :
    ∀ b : RingBuffer, (ps.foldl RingBuffer.push b).content = b.content ++ ps.flatten := by
  induction ps with
  | nil => intro b; simp
  | cons p ps ih =>
    intro b
    rw [List.foldl_cons, ih, RingBuffer.content_push, List.flatten_cons,
        List.append_assoc]

theorem RingBuffer.pushAll_content (ps : List bytearray_t) :
    (RingBuffer.pushAll ps).content = ps.flatten := by
  rw [RingBuffer.pushAll, RingBuffer.content_foldl_push, RingBuffer.content_init,
      List.nil_append]

theorem RingBuffer.popMany_flatten_isPre (ls : List Nat) :
    ∀ b : RingBuffer, ((RingBuffer.popMany b ls).1).flatten <+: b.content := by
  induction ls with
  | nil =>
    intro b
    show ([] : List bytearray_t).flatten <+: b.content
    exact ⟨b.content, rfl⟩
  | cons len ls ih =>
    intro b
    show ((b.pop len).1 :: (RingBuffer.popMany (b.pop len).2 ls).1).flatten <+: b.content
    rw [List.flatten_cons]
    obtain ⟨k, hk⟩ := ih (b.pop len).2
    rw [RingBuffer.pop_snd_content] at hk
    refine ⟨k, ?_⟩
    rw [RingBuffer.pop_fst, List.append_assoc, hk, List.take_append_drop]

theorem RingBuffer.popMany_fst_eq (ls : List Nat) :
    ∀ b₁ b₂ : RingBuffer, b₁.content = b₂.content →
      (RingBuffer.popMany b₁ ls).1 = (RingBuffer.popMany b₂ ls).1 := by
  induction ls with
  | nil => intro b₁ b₂ _; rfl
  | cons len ls ih =>
    intro b₁ b₂ h
    show (b₁.pop len).1 :: (RingBuffer.popMany (b₁.pop len).2 ls).1
        = (b₂.pop len).1 :: (RingBuffer.popMany (b₂.pop len).2 ls).1
    have h1 : (b₁.pop len).1 = (b₂.pop len).1 := by
      rw [RingBuffer.pop_fst, RingBuffer.pop_fst, h]
    have h2 : (b₁.pop len).2.content = (b₂.pop len).2.content := by
      rw [RingBuffer.pop_snd_content, RingBuffer.pop_snd_content, h]
    rw [h1, ih _ _ h2]

theorem buffer_entry_t.copyCtor_eq_self (e : buffer_entry_t) :
    buffer_entry_t.copyCtor e = e := by
  cases e; simp [buffer_entry_t.copyCtor]

theorem RingBuffer.copyCtor_id (b : RingBuffer) : RingBuffer.copyCtor b = b := by
  cases b with
  | mk ring s =>
    simp only [RingBuffer.copyCtor]
    congr 1
    have h : buffer_entry_t.copyCtor = fun e => e :=
      funext buffer_entry_t.copyCtor_eq_self
    rw [h, List.map_id' ring]

/-- Claim C1: for every sequence of `push` calls followed by any sequence
of `pop(len)` calls, each `pop` removes and returns exactly
`min(len, total unconsumed)` bytes, drawn from the front segments in
insertion order preserving byte order (the returned bytes are the first
`len` content bytes, the remaining content is the rest); the
concatenation of all popped bytes is a prefix of the concatenation of
all pushed bytes; the surviving segments are a suffix of the original
segments, each keeping its data with its cursor only advanced. -/
theorem ringBuffer_pop_spec :
    (∀ (b : RingBuffer) (len : Nat),
      (b.pop len).1 = b.content.take len
      ∧ (b.pop len).1.length = min len b.content.length
      ∧ (b.pop len).2.content = b.content.drop len
      ∧ ((b.pop len).2.ring.map fun e => e.data) <:+ (b.ring.map fun e => e.data)
      ∧ (∀ x ∈ (b.pop len).2.ring, ∃ e ∈ b.ring,
          e.data = x.data ∧ e.offset ≤ x.offset)
      ∧ (b.sizeInv → (b.pop len).1.length = min len b.size))
    ∧ (∀ (ps : List bytearray_t) (ls : List Nat),
        ((RingBuffer.popMany (RingBuffer.pushAll ps) ls).1).flatten <+: ps.flatten) := by
  constructor
  · intro b len
    refine ⟨RingBuffer.pop_fst b len, RingBuffer.pop_fst_length b len,
            RingBuffer.pop_snd_content b len, popAux_snd_suffix b.ring len,
            popAux_snd_entries b.ring len, ?_⟩
    intro h
    rw [RingBuffer.pop_fst_length, RingBuffer.size, h]
  · intro ps ls
    have h := RingBuffer.popMany_flatten_isPre ls (RingBuffer.pushAll ps)
    rwa [RingBuffer.pushAll_content] at h

/-- Witness for C1: instantiates the pop theorem on the concrete buffer
`rbExample` (content `[2,3]`, cached size 2) with `len = 1`, discharging
the size-invariant hypothesis and the segment-membership hypothesis. -/
theorem ringBuffer_pop_spec_witness :
    ((rbExample.pop 1).1.length = min 1 rbExample.size)
    ∧ (∃ e ∈ rbExample.ring, e.data = [1, 2, 3] ∧ e.offset ≤ 2) := by
  have h := ringBuffer_pop_spec.1 rbExample 1
  refine ⟨h.2.2.2.2.2 rfl, ?_⟩
  exact h.2.2.2.2.1 { data := [1, 2, 3], offset := 2 } (by decide)

/-- Claim C2: in every state reached from a freshly constructed buffer by
any sequence of `push`, `pop` and `clear` operations, `size()` equals
the number of unconsumed bytes across all stored segments. -/
theorem ringBuffer_size_invariant (ops : List RingBufferOp) :
    (RingBuffer.runOps ops).size = (RingBuffer.runOps ops).content.length :=
  RingBuffer.sizeInv_foldl ops RingBuffer.init RingBuffer.sizeInv_init

/-- Claim C6: `pop(0)` returns an empty byte sequence and mutates
nothing: the resulting buffer (segments, cursors and cached size) is
exactly the original. -/
theorem ringBuffer_pop_zero_noop (b : RingBuffer) : b.pop 0 = ([], b) := by
  cases b with
  | mk ring s => simp [RingBuffer.pop, popAux_zero]

/-- Claim C7: the buffer is a value type. Copy construction duplicates
all segment contents and cursors, producing a buffer equal to (hence
observationally identical to, with identical `pop` results; in this
functional model later operations on either value cannot affect the
other) the original, which is left unchanged. Move construction and
move/copy assignment transfer the contents; a moved-from source is left
empty with `size() = 0`. -/
theorem ringBuffer_value_semantics (b c : RingBuffer) (len : Nat) :
    RingBuffer.copyCtor b = b
    ∧ (RingBuffer.copyCtor b).pop len = b.pop len
    ∧ (RingBuffer.moveCtor b).1 = b
    ∧ (RingBuffer.moveCtor b).2.size = 0
    ∧ (RingBuffer.moveCtor b).2.content = []
    ∧ RingBuffer.copyAssign c b = (b, b)
    ∧ RingBuffer.moveAssign c b = (b, RingBuffer.init) := by
  refine ⟨RingBuffer.copyCtor_id b, by rw [RingBuffer.copyCtor_id b], rfl, rfl,
          rfl, ?_, rfl⟩
  show (RingBuffer.copyCtor b, b) = (b, b)
  rw [RingBuffer.copyCtor_id b]

/-- Claim C9: pushing an empty byte sequence is observationally a no-op:
`size()` is unchanged and every subsequent sequence of `pop` calls
returns exactly the same bytes as without that push. -/
theorem ringBuffer_push_empty_noop (b : RingBuffer) (ls : List Nat) :
    (b.push []).size = b.size
    ∧ (RingBuffer.popMany (b.push []) ls).1 = (RingBuffer.popMany b ls).1 := by
  constructor
  · simp [RingBuffer.push, RingBuffer.size]
  · exact RingBuffer.popMany_fst_eq ls (b.push []) b
      (by rw [RingBuffer.content_push]; simp)

/-- Claim C3: `terminate()` is idempotent. Any number of calls equals a
single call; the teardown hook runs exactly once when the
self-reference is still held (as it is from construction) and never
again; the first call clears all event registrations, closes the
socket, removes the pool entry and releases the self-reference. -/
theorem conn_terminate_idempotent (c : ConnPool.Conn) (n : Nat) :
    ConnPool.Conn.terminate (ConnPool.Conn.terminate c) = ConnPool.Conn.terminate c
    ∧ ConnPool.Conn.terminate^[n + 1] c = ConnPool.Conn.terminate c
    ∧ (ConnPool.Conn.terminate^[n + 1] c).teardown_count
        = c.teardown_count + (if c.self_ref then 1 else 0)
    ∧ (c.self_ref = true →
        (ConnPool.Conn.terminate c).self_ref = false
        ∧ (ConnPool.Conn.terminate c).ev_read = false
        ∧ (ConnPool.Conn.terminate c).ev_write = false
        ∧ (ConnPool.Conn.terminate c).ev_connect = false
        ∧ (ConnPool.Conn.terminate c).fd_open = false
        ∧ (ConnPool.Conn.terminate c).in_pool = false
        ∧ (ConnPool.Conn.terminate c).teardown_count = c.teardown_count + 1) := by
  have hidem : ∀ d : ConnPool.Conn,
      ConnPool.Conn.terminate (ConnPool.Conn.terminate d) = ConnPool.Conn.terminate d := by
    intro d
    by_cases h : d.self_ref
    · simp [ConnPool.Conn.terminate, ConnPool.Conn.close, h]
    · simp [ConnPool.Conn.terminate, h]
  have hiter : ∀ m : Nat, ∀ d : ConnPool.Conn,
      ConnPool.Conn.terminate^[m + 1] d = ConnPool.Conn.terminate d := by
    intro m
    induction m with
    | zero => intro d; rfl
    | succ m ih =>
      intro d
      rw [Function.iterate_succ_apply', ih, hidem]
  refine ⟨hidem c, hiter n c, ?_, ?_⟩
  · rw [hiter n c]
    by_cases h : c.self_ref <;>
      simp [ConnPool.Conn.terminate, ConnPool.Conn.close, h]
  · intro h
    simp [ConnPool.Conn.terminate, ConnPool.Conn.close, h]

/-- Witness for C3: two `terminate()` calls on the concrete live
connection `connExample` equal one call, and the teardown hook has run
exactly once afterwards; the first call cleared the registrations. -/
theorem conn_terminate_idempotent_witness :
    ConnPool.Conn.terminate (ConnPool.Conn.terminate connExample)
      = ConnPool.Conn.terminate connExample
    ∧ (ConnPool.Conn.terminate connExample).teardown_count = 1
    ∧ (ConnPool.Conn.terminate connExample).ev_read = false := by
  have h := conn_terminate_idempotent connExample 0
  exact ⟨h.1, (h.2.2.2 rfl).2.2.2.2.2.2, (h.2.2.2 rfl).2.1⟩

/-- Claim C4: `write(bytes)` appends the bytes to the send buffer, and a
synchronous flush attempt (`send_data`) happens in the same call exactly
when `ready_send` is set; otherwise the bytes stay queued in the send
buffer (whose content is the old content followed by `bytes`) and
`ready_send` stays clear, awaiting the next write-readiness event. -/
theorem conn_write_spec (c : ConnPool.Conn) (data : bytearray_t) (cap : Nat) :
    (c.write data cap).2 = c.ready_send
    ∧ (if c.ready_send then
        (c.write data cap).1
          = ConnPool.Conn.send_data { c with send_buffer := c.send_buffer.push data } cap
      else
        (c.write data cap).1.send_buffer = c.send_buffer.push data
        ∧ (c.write data cap).1.send_buffer.content = c.send_buffer.content ++ data
        ∧ (c.write data cap).1.ready_send = c.ready_send) := by
  by_cases h : c.ready_send <;>
    simp [ConnPool.Conn.write, h, RingBuffer.content_push]

/-- Claim C5: destroying the pool closes every connection in the
registry: each entry keeps its key and has its read, write and connect
event registrations cleared and its socket handle closed, and no
connection's `on_teardown` hook is invoked (the invocation counts are
unchanged). -/
theorem connPool_destructor_spec (p : ConnPool) :
    ((p.destructor).map fun kv => (kv.1, kv.2.teardown_count))
      = (p.pool.map fun kv => (kv.1, kv.2.teardown_count))
    ∧ ∀ kv ∈ p.destructor,
        kv.2.ev_read = false ∧ kv.2.ev_write = false
        ∧ kv.2.ev_connect = false ∧ kv.2.fd_open = false := by
  constructor
  · simp [ConnPool.destructor, ConnPool.Conn.close]
  · intro kv hkv
    simp only [ConnPool.destructor, List.mem_map] at hkv
    obtain ⟨x, _, hx⟩ := hkv
    subst hx
    simp [ConnPool.Conn.close]

/-- Witness for C5: destroying the concrete pool `poolExample`
(one registered connection) leaves the teardown counts unchanged, and
its one destroyed entry has all registrations cleared and the socket
closed. -/
theorem connPool_destructor_spec_witness :
    ((poolExample.destructor).map fun kv => (kv.1, kv.2.teardown_count))
      = (poolExample.pool.map fun kv => (kv.1, kv.2.teardown_count))
    ∧ ((5 : Int), connExample.close).2.ev_read = false
    ∧ ((5 : Int), connExample.close).2.fd_open = false := by
  have h := connPool_destructor_spec poolExample
  have hm : ((5 : Int), connExample.close) ∈ poolExample.destructor := by decide
  exact ⟨h.1, (h.2 _ hm).1, (h.2 _ hm).2.2.2⟩

/-- Claim C8: `listen` fails exactly when binding or listening fails at
the OS level, reporting the failure synchronously as a typed
`ConnPoolError`; on such an error the pool (registry and configuration)
is unchanged, and on success only the listening socket and its
read-readiness registration are recorded. -/
theorem connPool_listen_error_spec (p : ConnPool) (os : ListenOS) :
    ((p.listen os).2.isSome = (!(os.bind_ok && os.listen_ok)))
    ∧ ((p.listen os).2.isSome = true → (p.listen os).1 = p)
    ∧ ((p.listen os).2 = none →
        (p.listen os).1 = { p with listen_fd := some os.sock_fd, ev_listen := true }) := by
  rcases os with ⟨bo, lo, fd⟩
  cases bo <;> cases lo <;> simp [ConnPool.listen]

/-- Witness for C8: a `listen` call on the default-constructed pool whose
`bind` fails at the OS level reports an error and leaves the pool
exactly as it was. -/
theorem connPool_listen_error_spec_witness :
    (ConnPool.ctorDefault.listen
        { bind_ok := false, listen_ok := true, sock_fd := 7 }).1
      = ConnPool.ctorDefault := by
  have h := connPool_listen_error_spec ConnPool.ctorDefault
    { bind_ok := false, listen_ok := true, sock_fd := 7 }
  exact h.2.1 rfl

/-- Claim C10: a pool constructed without explicit configuration
arguments gets the C++ default arguments: accept backlog 10, connect
retry-delay base 2, passive-setup timeout 2, per-read segment buffer
size 4096. -/
theorem connPool_default_config :
    ConnPool.ctorDefault.max_listen_backlog = 10
    ∧ ConnPool.ctorDefault.try_conn_delay = 2
    ∧ ConnPool.ctorDefault.conn_server_timeout = 2
    ∧ ConnPool.ctorDefault.seg_buff_size = 4096 :=
  ⟨rfl, rfl, rfl, rfl⟩

end Salticidae
